import Mathlib

/-!
Verification of the thanos-io/objstore specification against a shallow embedding of the
code of the repository.

The main embedded component is the filesystem provider (`providers/filesystem`): its `Upload`,
`Get`, `GetRange` and the condition/option plumbing they use.  The local disk is modelled as a
finite association list from paths (component lists) to entries; every syscall the provider
performs (`os.Stat`, `os.OpenFile`, `os.MkdirAll`, `os.Rename`, `xattr.Get/Set`) is given a
small model over that state.  The generic option framework (`ValidateIterOptions` and friends)
and the decorators (metrics, timing wrapper, encryption, sync engine) live in `objstore.go`,
which is not part of the sources here; those are modelled from the specification, as marked on
each definition.
-/

namespace Objstore

/-- Decidable equality for `Except`, so concrete runs of the modelled operations can be
checked by `decide`. -/
instance {ε α : Type} [DecidableEq ε] [DecidableEq α] : DecidableEq (Except ε α)
  | .error e1, .error e2 =>
      match decEq e1 e2 with
      | isTrue h => isTrue (h ▸ rfl)
      | isFalse h => isFalse (fun hh => h (Except.error.inj hh))
  | .error _, .ok _ => isFalse (fun hh => Except.noConfusion hh)
  | .ok _, .error _ => isFalse (fun hh => Except.noConfusion hh)
  | .ok a, .ok b =>
      match decEq a b with
      | isTrue h => isTrue (h ▸ rfl)
      | isFalse h => isFalse (fun hh => h (Except.ok.inj hh))

/-- Errors surfaced by the modelled operations.  Each constructor stands for one of the Go
error classes the sources distinguish (`os.IsNotExist`, `fs.ErrExist`, `EISDIR`, the internal
`errConditionNotMet`, context cancellation, the option-validation error, ...). -/
inductive Err where
  | notFound
  | alreadyExists
  | isADir
  | notADir
  | swapBlocked
  | noXattr
  | conditionNotMet
  | unsupportedOption
  | cancelled
  | emptyName
  deriving DecidableEq, Repr

/-- A path below the bucket root directory, as a list of path components.  It models the result
of `filepath.Join(b.rootDir, name)` relative to `rootDir`; `[]` is the root itself. -/
abbrev Path := List String

/-- One filesystem entry: a directory, or a regular file with its content bytes and the
optional `user.thanos.objstore.sha256sum` extended attribute. -/
inductive EntryData where
  | dir
  | file (content : List Nat) (xsum : Option (List Nat))
  deriving DecidableEq, Repr

/-- The state of the disk below the bucket root: a finite association list from paths to
entries.  The root `[]` itself is treated as an always-present directory (the standard
configuration: the bucket is created over an existing directory, and the first `MkdirAll`
would create it anyway). -/
abbrev FS := List (Path × EntryData)

/-- Association-list lookup over the raw entry list. -/
def findFS : FS → Path → Option EntryData
  | [], _ => none
  | (q, d) :: rest, p => if q = p then some d else findFS rest p

/-- Path lookup; the root `[]` always resolves to a directory. -/
def lookupFS (fs : FS) (p : Path) : Option EntryData :=
  if p = [] then some EntryData.dir else findFS fs p

/-- Remove the entry stored at `p` (if any). -/
def eraseFS : FS → Path → FS
  | [], _ => []
  | (q, d) :: rest, p => if q = p then eraseFS rest p else (q, d) :: eraseFS rest p

/-- Store entry `d` at path `p`, replacing any previous entry. -/
def setFS (fs : FS) (p : Path) (d : EntryData) : FS :=
  (p, d) :: eraseFS fs p

/-- The proper ancestors of a path, shortest first: `p.take 0`, ..., `p.take (p.length - 1)`. -/
def ancestorsOf (p : Path) : List Path :=
  (List.range p.length).map (fun i => p.take i)

/-- Path resolution as the kernel performs it for the modelled syscalls: every proper ancestor
of `p` must be a directory. -/
def resolvableFS (fs : FS) (p : Path) : Bool :=
  (ancestorsOf p).all (fun q => decide (lookupFS fs q = some EntryData.dir))

/-- Model of `os.Stat` below the root: resolves the path, then reports the entry. -/
def statFS (fs : FS) (p : Path) : Option EntryData :=
  if resolvableFS fs p then lookupFS fs p else none

/-- All prefixes of `p` including `p` itself, shortest first. -/
def prefixesUpTo (p : Path) : List Path :=
  (List.range (p.length + 1)).map (fun i => p.take i)

/-- One step of `os.MkdirAll`: ensure path `q` is a directory, failing like `ENOTDIR` when a
regular file is in the way. -/
def mkdirStep (fs : FS) (q : Path) : Except Err FS :=
  match lookupFS fs q with
  | some EntryData.dir => .ok fs
  | some (EntryData.file _ _) => .error .notADir
  | none => .ok (setFS fs q EntryData.dir)

/-- Model of `os.MkdirAll`: create every missing prefix of `p` as a directory. -/
def mkdirAll (fs : FS) (p : Path) : Except Err FS :=
  (prefixesUpTo p).foldlM mkdirStep fs

/-- Model of `openSwap` (part_005): open the swap file with `O_RDWR|O_CREATE|O_EXCL`,
retrying while the file already exists.  In this sequential model nothing ever removes a
pre-existing swap file, so the retry loop never returns; that blocked execution is rendered
as the `swapBlocked` error.  A missing parent directory surfaces as `ENOENT`. -/
def openSwap (fs : FS) (p : Path) : Except Err FS :=
  if resolvableFS fs p then
    match lookupFS fs p with
    | none => .ok (setFS fs p (EntryData.file [] none))
    | some _ => .error .swapBlocked
  else .error .notFound

/-- Model of `tryOpenFile` (part_005): first try `O_RDWR|O_CREATE|O_EXCL`; on `ErrExist`, and
only when `ifNotExists` is unset, reopen with `O_RDWR|O_CREATE|O_APPEND` (which keeps the
existing content).  The returned Bool is the `exists` out-parameter.  Opening a directory for
writing fails with `EISDIR`; a missing parent fails with `ENOENT`. -/
def tryOpenFile (fs : FS) (p : Path) (ifNotExists : Bool) : Except Err (Bool × FS) :=
  if resolvableFS fs p then
    match lookupFS fs p with
    | none => .ok (false, setFS fs p (EntryData.file [] none))
    | some (EntryData.file _ _) =>
        if ifNotExists then .error .alreadyExists else .ok (true, fs)
    | some EntryData.dir =>
        if ifNotExists then .error .alreadyExists else .error .isADir
  else .error .notFound

/-- Model of `Bucket.checksum` (part_005): read the checksum xattr of the file at `p`;
a file without the attribute yields the `ENOATTR`-style error that `xattr.Get` returns. -/
def checksumFS (fs : FS) (p : Path) : Except Err (List Nat) :=
  match lookupFS fs p with
  | some (EntryData.file _ (some x)) => .ok x
  | some (EntryData.file _ none) => .error .noXattr
  | _ => .error .notFound

/-- Model of the `io.Copy(writer, r)` into the open swap file: replace the content of the
entry at `p` with the uploaded bytes. -/
def copyToFS (fs : FS) (p : Path) (bytes : List Nat) : Except Err FS :=
  match lookupFS fs p with
  | some (EntryData.file _ x) => .ok (setFS fs p (EntryData.file bytes x))
  | _ => .error .notFound

/-- Model of `xattr.Set(swap, xAttrKey, digest)`: record the checksum attribute on the entry
at `p`. -/
def xattrSetFS (fs : FS) (p : Path) (digest : List Nat) : Except Err FS :=
  match lookupFS fs p with
  | some (EntryData.file c _) => .ok (setFS fs p (EntryData.file c (some digest)))
  | _ => .error .notFound

/-- Model of `os.Rename(src, dst)`: atomically move the entry at `src` over `dst`.  Renaming
over an existing directory fails; both paths must resolve. -/
def renameFS (fs : FS) (src dst : Path) : Except Err FS :=
  if resolvableFS fs src && resolvableFS fs dst then
    match lookupFS fs src, lookupFS fs dst with
    | none, _ => .error .notFound
    | some _, some EntryData.dir => .error .isADir
    | some e, _ => .ok (setFS (eraseFS fs src) dst e)
  else .error .notFound

/-- Abstract stand-in for the SHA-256 digest written into the checksum xattr.  No claim in
this development depends on the digest value, only on its being a function of the uploaded
bytes, so the hash itself is left uninterpreted. -/
def sha256sum (bs : List Nat) : List Nat := bs

/-- Split a character list at the path delimiter, keeping empty components (the semantics of
`strings.Split` on `/`); `acc` is the current component read so far, in reverse. -/
def splitPathAux : List Char → List Char → List String
  | [], acc => [String.mk acc.reverse]
  | c :: rest, acc =>
      if c = '/' then String.mk acc.reverse :: splitPathAux rest []
      else splitPathAux rest (c :: acc)

/-- The delimiter-separated components of a name, empty ones included. -/
def pathComponents (s : String) : List String :=
  splitPathAux s.toList []

/-- `filepath.Join(rootDir, name)` relative to the root: split on the delimiter and drop empty
components (which `filepath.Clean` collapses).  `.` and `..` components are not modelled;
theorems quantifying over names carry a cleanliness hypothesis excluding them. -/
def splitPath (s : String) : Path :=
  (pathComponents s).filter (fun c => decide (c ≠ ""))

/-- A name whose components the path model treats faithfully: no `.` or `..` component
(these would be rewritten by `filepath.Clean`). -/
def cleanName (s : String) : Prop :=
  ∀ c ∈ pathComponents s, c ≠ "." ∧ c ≠ ".."

/-- The build-time constant `xattr.XATTR_SUPPORTED`; true on the Linux targets this
repository is built and tested on. -/
def xattrSupported : Bool := true

/-- The version token type enum (spec section 3: `enum with the single member ETag`). -/
inductive VersionType where
  | eTag
  deriving DecidableEq, Repr

/-- `objstore.ObjectVersion`: an uninterpreted change-detection token compared by value equality.
The value is the raw checksum bytes stored in the xattr. -/
structure ObjectVersion where
  vtype : VersionType
  value : List Nat
  deriving DecidableEq, Repr

/-- `objstore.UploadObjectParams` (spec section 3). -/
structure UploadObjectParams where
  condition : Option ObjectVersion
  ifNotExists : Bool
  ifMatch : Bool
  ifNotMatch : Bool
  deriving DecidableEq, Repr

/-- The upload option type tags (`objstore.IfNotExists` / `IfMatch` / `IfNotMatch`). -/
inductive ObjectUploadOptionType where
  | ifNotExists
  | ifMatch
  | ifNotMatch
  deriving DecidableEq, Repr

/-- The upload options themselves; the conditional ones carry the version to compare with. -/
inductive ObjectUploadOption where
  | withIfNotExists
  | withIfMatch (v : ObjectVersion)
  | withIfNotMatch (v : ObjectVersion)
  deriving DecidableEq, Repr

/-- The option type tag of an upload option. -/
def ObjectUploadOption.otype : ObjectUploadOption → ObjectUploadOptionType
  | .withIfNotExists => .ifNotExists
  | .withIfMatch _ => .ifMatch
  | .withIfNotMatch _ => .ifNotMatch

/-- Modelled from the spec: `objstore.ValidateUploadOptions` is not under src (only its
callers are).  Spec section 4.1: options are validated against the supported set before use;
an unsupported option fails fast with a descriptive error. -/
def ValidateUploadOptions (supported : List ObjectUploadOptionType)
    (opts : List ObjectUploadOption) : Except Err Unit :=
  if opts.all (fun o => supported.contains o.otype) then .ok () else .error .unsupportedOption

/-- Modelled from the spec: `objstore.ApplyObjectUploadOptions` is not under src.  Folds the
requested options into `UploadObjectParams` (spec section 3); each conditional option records
its version as the condition and sets its flag. -/
def ApplyObjectUploadOptions (opts : List ObjectUploadOption) : UploadObjectParams :=
  opts.foldl
    (fun ps o =>
      match o with
      | .withIfNotExists => { ps with ifNotExists := true }
      | .withIfMatch v => { ps with condition := some v, ifMatch := true, ifNotMatch := false }
      | .withIfNotMatch v => { ps with condition := some v, ifNotMatch := true })
    ⟨none, false, false, false⟩

/-- `Bucket.SupportedObjectUploadOptions` of the filesystem provider (part_005). -/
def fsSupportedObjectUploadOptions : List ObjectUploadOptionType :=
  if xattrSupported then [.ifNotExists, .ifMatch, .ifNotMatch] else []

/-- Model of `Bucket.checkConditions` (part_005), including the checksum xattr read. -/
def checkConditions (fs : FS) (p : Path) (params : UploadObjectParams) (present : Bool) :
    Except Err Unit :=
  if params.condition.isSome && !present && !params.ifNotMatch then .error .conditionNotMet
  else
    match params.condition, present with
    | some cond, true =>
        if cond.vtype ≠ VersionType.eTag then .error .conditionNotMet
        else
          match checksumFS fs p with
          | .error e => .error e
          | .ok chk =>
              if params.ifNotMatch && decide (chk = cond.value) then .error .conditionNotMet
              else if !params.ifNotMatch && decide (chk ≠ cond.value) then
                .error .conditionNotMet
              else .ok ()
    | _, _ => .ok ()

/-- Model of the filesystem `Bucket.Upload` (part_005 lines 307-367).  The context is the
`ctxCancelled` flag.  Failure paths return only the error: the deferred swap-file cleanup
affects only the on-disk state of failed uploads, which no theorem here inspects. -/
def fsUpload (fs : FS) (ctxCancelled : Bool) (name : String) (r : List Nat)
    (opts : List ObjectUploadOption) : Except Err FS :=
  match ValidateUploadOptions fsSupportedObjectUploadOptions opts with
  | .error e => .error e
  | .ok _ =>
    if ctxCancelled then .error .cancelled
    else
      let file := splitPath name
      let swap := splitPath (name ++ ".swap")
      match mkdirAll fs file.dropLast with
      | .error e => .error e
      | .ok fs1 =>
        let params := ApplyObjectUploadOptions opts
        match openSwap fs1 swap with
        | .error e => .error e
        | .ok fs2 =>
          match tryOpenFile fs2 file params.ifNotExists with
          | .error e => .error e
          | .ok (present, fs3) =>
            match checkConditions fs3 file params present with
            | .error e => .error e
            | .ok _ =>
              match
                ((if xattrSupported then
                  match copyToFS fs3 swap r with
                  | .error e => .error e
                  | .ok fsC => xattrSetFS fsC swap (sha256sum r)
                else .ok fs3) : Except Err FS) with
              | .error e => .error e
              | .ok fs4 => renameFS fs4 swap file

/-- The observable behaviour of the `io.ReadCloser` a successful `GetRange` returns: the bytes
obtained by draining it, and the error (if any) that draining runs into. -/
structure RangeStream where
  bytes : List Nat
  readErr : Option Err
  deriving DecidableEq, Repr

/-- Model of the filesystem `Bucket.GetRange` (part_005 lines 211-261): stat, open read-only,
seek when `off > 0`, then either hand the file over directly (`length == -1`) or wrap it in
`io.LimitReader(f, length)`.  A negative seek never happens (`off > 0` guards the seek), so
`Int.toNat` matches the effective offset; `LimitReader` with a non-positive limit yields no
bytes.  Opening a directory succeeds and draining it fails with `EISDIR`. -/
def fsGetRange (fs : FS) (ctxCancelled : Bool) (name : String) (off length : Int) :
    Except Err RangeStream :=
  if ctxCancelled then .error .cancelled
  else if name = "" then .error .emptyName
  else
    let file := splitPath name
    match statFS fs file with
    | none => .error .notFound
    | some EntryData.dir => .ok { bytes := [], readErr := some Err.isADir }
    | some (EntryData.file content _) =>
        let dropped := content.drop off.toNat
        if length = -1 then .ok { bytes := dropped, readErr := none }
        else .ok { bytes := dropped.take length.toNat, readErr := none }

/-- Model of the filesystem `Bucket.Get` (part_005 line 156): delegates to
`GetRange(ctx, name, 0, -1)`. -/
def fsGet (fs : FS) (ctxCancelled : Bool) (name : String) : Except Err RangeStream :=
  fsGetRange fs ctxCancelled name 0 (-1)

/-! ## Iteration options and the OBS provider listing (part_008) -/

/-- The iteration option type tags (`objstore.Recursive` / `objstore.UpdatedAt`); the spec
describes the option set as a closed tagged enum and the sources use exactly these two. -/
inductive IterOptionType where
  | recursive
  | updatedAt
  deriving DecidableEq, Repr

/-- The iteration options (`objstore.WithRecursiveIter()` / `objstore.WithUpdatedAt()`);
neither carries a payload. -/
inductive IterOption where
  | withRecursiveIter
  | withUpdatedAt
  deriving DecidableEq, Repr

/-- The option type tag of an iteration option. -/
def IterOption.itype : IterOption → IterOptionType
  | .withRecursiveIter => .recursive
  | .withUpdatedAt => .updatedAt

/-- `objstore.IterParams`: the parameter record the options fold into. -/
structure IterParams where
  recursive : Bool
  lastModified : Bool
  deriving DecidableEq, Repr

/-- Modelled from the spec: `objstore.ApplyIterOptions` is not under src (only its callers
are).  Folds the requested options into `IterParams`. -/
def ApplyIterOptions (opts : List IterOption) : IterParams :=
  opts.foldl
    (fun ps o =>
      match o with
      | .withRecursiveIter => { ps with recursive := true }
      | .withUpdatedAt => { ps with lastModified := true })
    ⟨false, false⟩

/-- Modelled from the spec: `objstore.ValidateIterOptions` is not under src.  Spec section
4.1: if any requested option type is absent from the supported set, fail synchronously with a
descriptive error instead of silently ignoring the option. -/
def ValidateIterOptions (supported : List IterOptionType) (opts : List IterOption) :
    Except Err Unit :=
  if opts.all (fun o => supported.contains o.itype) then .ok () else .error .unsupportedOption

/-- `Bucket.SupportedIterOptions` of the OBS provider (part_008 line 244): Recursive only. -/
def obsSupportedIterOptions : List IterOptionType := [IterOptionType.recursive]

/-- One page returned by the vendor OBS `ListObjects` call: object keys, common-prefix
pseudo-directories, and the truncation flag driving the pagination loop. -/
structure ObsPage where
  contents : List String
  topDirs : List String
  truncated : Bool

/-- The `obs.Bucket.Iter` pagination loop body (part_008): visit the keys and common prefixes
of each page, continuing while pages report truncation. -/
def obsIterPages : List ObsPage → List String
  | [] => []
  | pg :: rest => pg.contents ++ pg.topDirs ++ (if pg.truncated then obsIterPages rest else [])

/-- Whether a name already ends in the path delimiter. -/
def endsWithSlash (s : String) : Bool :=
  decide (s.toList.getLast? = some '/')

/-- The directory-name normalisation at the top of `obs.Bucket.Iter`
(`strings.TrimSuffix(dir, DirDelim) + DirDelim` for non-empty `dir`): ensure exactly one
trailing delimiter is appended. -/
def normDir (dir : String) : String :=
  if dir = "" then dir else if endsWithSlash dir then dir else dir ++ "/"

/-- Model of `obs.Bucket.Iter` (part_008 lines 249-284).  The vendor client is external to
the repository and is modelled as the function from the request (normalised prefix, and
whether the delimiter was cleared by the Recursive option) to the page sequence it serves.
Exactly as in the source, the requested options are folded with `ApplyIterOptions` and only
the `Recursive` field is consulted; no option validation happens. -/
def obsIter (client : String → Bool → List ObsPage) (dir : String) (opts : List IterOption) :
    Except Err (List String) :=
  .ok (obsIterPages (client (normDir dir) (ApplyIterOptions opts).recursive))

/-- Model of `obs.Bucket.IterWithAttributes` (part_008 lines 286-295): validate the requested
options against the supported set, then delegate to `Iter` (the visited attribute records
carry only the name, so the result is the same name list). -/
def obsIterWithAttributes (client : String → Bool → List ObsPage) (dir : String)
    (opts : List IterOption) : Except Err (List String) :=
  match ValidateIterOptions obsSupportedIterOptions opts with
  | .error e => .error e
  | .ok _ => obsIter client dir opts

/-! ## Metrics decorator (spec sections 4.3, 6, 8; code in objstore.go, not under src) -/

/-- The operation labels of the metrics decorator (spec section 6). -/
inductive Op where
  | opIter
  | opAttributes
  | opGet
  | opGetRange
  | opExists
  | opUpload
  | opDelete
  deriving DecidableEq, Repr

/-- Modelled from the spec: the counter state of one Metrics-decorated bucket — attempted and
failed operations per operation label (spec sections 3 and 6); the metrics code in objstore.go
is not under src.  Histograms and gauges are not needed by any claim and are omitted. -/
structure BucketMetrics where
  ops : Op → Nat
  opsFailures : Op → Nat

/-- Fresh counters, all zero. -/
def initMetrics : BucketMetrics := ⟨fun _ => 0, fun _ => 0⟩

/-- Increment the attempted-operations counter of `op`. -/
def incOp (m : BucketMetrics) (op : Op) : BucketMetrics :=
  { m with ops := fun o => if o = op then m.ops o + 1 else m.ops o }

/-- Increment the failed-operations counter of `op`. -/
def incFailure (m : BucketMetrics) (op : Op) : BucketMetrics :=
  { m with opsFailures := fun o => if o = op then m.opsFailures o + 1 else m.opsFailures o }

/-- Modelled from the spec: the bookkeeping of one `Upload` through the Metrics decorator —
count the attempt, and count a failure unless the error is classified expected by the
caller-supplied predicate (spec sections 4.2 and 8; test objstore_test.go lines 24-75). -/
def metricUpload (isExpected : Err → Bool) (m : BucketMetrics) (result : Except Err Unit) :
    BucketMetrics :=
  let m1 := incOp m Op.opUpload
  match result with
  | .ok _ => m1
  | .error e => if isExpected e then m1 else incFailure m1 Op.opUpload

/-- Fold a sequence of upload outcomes through the metrics bookkeeping. -/
def metricUploadMany (isExpected : Err → Bool) (m : BucketMetrics)
    (results : List (Except Err Unit)) : BucketMetrics :=
  results.foldl (metricUpload isExpected) m

/-- Modelled from the spec: the bookkeeping of one `Get` through the Metrics decorator (spec
section 8: a not-found error counts as a failure unless explicitly marked expected). -/
def metricGet (isExpected : Err → Bool) (m : BucketMetrics) (result : Except Err (List Nat)) :
    BucketMetrics :=
  let m1 := incOp m Op.opGet
  match result with
  | .ok _ => m1
  | .error e => if isExpected e then m1 else incFailure m1 Op.opGet

/-- The filesystem/in-memory not-found classifier (`IsObjNotFoundErr`) over the modelled
error type. -/
def isObjNotFoundErr (e : Err) : Bool := decide (e = Err.notFound)

/-! ## Capability-preserving stream wrapper (spec sections 4.2, 9; code not under src) -/

/-- The two independent random-access capabilities of a byte stream: absolute seek
(`io.Seeker`) and offset read (`io.ReaderAt`). -/
structure StreamCaps where
  seeker : Bool
  readerAt : Bool
  deriving DecidableEq, Repr

/-- The four wrapper variants of the instrumenting stream wrapper (spec section 9: none /
seek-only / offset-read-only / both). -/
inductive TimingVariant where
  | plain
  | seekerOnly
  | readerAtOnly
  | seekerReaderAt
  deriving DecidableEq, Repr

/-- Modelled from the spec: the construct-time capability probing of `newTimingReader` —
detect which of the two capabilities the base stream exposes and pick the wrapper variant
accordingly (spec sections 4.2 and 9); the wrapper code in objstore.go is not under src. -/
def newTimingReaderVariant (caps : StreamCaps) : TimingVariant :=
  if caps.seeker && caps.readerAt then .seekerReaderAt
  else if caps.seeker then .seekerOnly
  else if caps.readerAt then .readerAtOnly
  else .plain

/-- The capability combination a wrapper variant reports (which optional interfaces the
returned value implements). -/
def TimingVariant.caps : TimingVariant → StreamCaps
  | .plain => ⟨false, false⟩
  | .seekerOnly => ⟨true, false⟩
  | .readerAtOnly => ⟨false, true⟩
  | .seekerReaderAt => ⟨true, true⟩

/-- The bookkeeping state of one instrumented stream: whether the terminal bookkeeping has
already run, the failure-counter increments attributed to this stream, and the number of
duration observations recorded. -/
structure TimingReaderState where
  done : Bool
  failures : Nat
  durationObs : Nat
  deriving DecidableEq, Repr

/-- Modelled from the spec: the bookkeeping of the instrumented stream `Close` — on the first
terminal event record the elapsed duration and classify the error through the caller-supplied
predicate, and never run the bookkeeping twice (spec section 4.2 closing semantics; test
objstore_test.go lines 254-284).  `closeErr` is the error the wrapped stream `Close`
returned. -/
def timingClose (isExpected : Err → Bool) (st : TimingReaderState) (closeErr : Option Err) :
    TimingReaderState :=
  if st.done then st
  else
    match closeErr with
    | some e =>
        { done := true
          failures := if isExpected e then st.failures else st.failures + 1
          durationObs := st.durationObs + 1 }
    | none => { done := true, failures := st.failures, durationObs := st.durationObs + 1 }

/-- A caller-supplied reader with its observable closed flag. -/
structure CallerReader where
  bytes : List Nat
  closed : Bool
  deriving DecidableEq, Repr

/-- Close of the instrumenting wrapper as it affects the wrapped base reader: the base is
closed only when the wrapper was constructed with `okToClose` set. -/
def timingWrapClose (okToClose : Bool) (r : CallerReader) : CallerReader :=
  if okToClose then { r with closed := true } else r

/-- Modelled from the spec: `Upload` through the Metrics decorator wraps the caller-supplied
reader in the instrumenting wrapper constructed with `okToClose = false`, runs the wrapped
upload on the stream contents, and closes only the wrapper (spec section 4.2: the wrapper
does not implicitly close anything beyond what it wraps; test objstore_test.go lines
147-170). -/
def metricUploadReader (upload : List Nat → Except Err Unit) (r : CallerReader) :
    Except Err Unit × CallerReader :=
  (upload r.bytes, timingWrapClose false r)

/-! ## Directory synchronization engine (spec section 4.4; code not under src) -/

/-- The local disk the sync engine writes into: a finite map from paths to file contents
(directories are implicit, as the engine creates them on demand). -/
abbrev LocalFS := List (Path × List Nat)

/-- Whether anything exists at or below `root` on the local disk. -/
def destExists (root : Path) (lfs : LocalFS) : Bool :=
  lfs.any (fun e => root.isPrefixOf e.1)

/-- Remove the whole tree at or below `root`. -/
def cleanupDest (root : Path) (lfs : LocalFS) : LocalFS :=
  lfs.filter (fun e => !(root.isPrefixOf e.1))

/-- Write one fetched object to its mirrored relative path under the destination root. -/
def writeLocal (lfs : LocalFS) (p : Path) (bytes : List Nat) : LocalFS :=
  (p, bytes) :: lfs.filter (fun e => decide (e.1 ≠ p))

/-- Modelled from the spec: the fetch loop of `DownloadDir` (spec section 4.4) — fetch each
listed object into `destRoot`, mirroring its relative path; on the first fetch failure stop,
remove the entire `destRoot` tree, and return the triggering error.  The engine source in
objstore.go is not under src; the bounded-concurrency pool affects scheduling only and is
modelled serially (the default concurrency is 1). -/
def downloadLoop (get : String → Except Err (List Nat)) (destRoot : Path) :
    List String → LocalFS → Except Err Unit × LocalFS
  | [], lfs => (.ok (), lfs)
  | n :: rest, lfs =>
    match get n with
    | .error e => (.error e, cleanupDest destRoot lfs)
    | .ok bytes => downloadLoop get destRoot rest (writeLocal lfs (destRoot ++ splitPath n) bytes)

/-- Modelled from the spec: `DownloadDir` over the recursive listing `names` of the source
subtree (names relative to the source root), fetching through `get` into `destRoot`. -/
def downloadDir (get : String → Except Err (List Nat)) (names : List String)
    (destRoot : Path) (lfs : LocalFS) : Except Err Unit × LocalFS :=
  downloadLoop get destRoot names lfs

/-! ## Encryption decorator (spec sections 3, 4.3, 9; code not under src) -/

/-- The fixed nonce length of the authenticated cipher (the standard 12-byte AEAD nonce; the
spec fixes only that the length is constant, which is all the development uses). -/
def nonceLen : Nat := 12

/-- The base-256 digits of `n`, little-endian, padded or truncated to width `w`. -/
def nonceDigits : Nat → Nat → List Nat
  | 0, _ => []
  | w + 1, n => (n % 256) :: nonceDigits w (n / 256)

/-- The `i`-th fresh nonce drawn from the randomness of the decorator, modelled as a fixed-width
little-endian counter (distinct draws give distinct nonces, the defining property of the
never-reuse invariant in spec section 3). -/
def counterNonce (n : Nat) : List Nat :=
  nonceDigits nonceLen n

/-- Modelled from the spec: sealing one object with the authenticated cipher under
single-nonce-per-object framing (spec section 9) — the nonce is prepended to the sealed body
so `Get` can decrypt, and an authentication tag over key, nonce and plaintext is appended.
The cipher body itself is left as the plaintext: no claim here concerns confidentiality, only
the framing of the ciphertext bytes. -/
def encryptObject (key nonce pt : List Nat) : List Nat :=
  nonce ++ pt ++ sha256sum (key ++ nonce ++ pt)

/-- The per-bucket nonce-generation state of the Encryption decorator. -/
structure EncState where
  nonceCtr : Nat
  deriving DecidableEq, Repr

/-- Modelled from the spec: `Upload` through the Encryption decorator — generate a fresh
nonce, seal the plaintext, advance the nonce state (spec section 4.3: fresh random nonce per
call, never reused for the same key). -/
def encUpload (key : List Nat) (st : EncState) (pt : List Nat) : List Nat × EncState :=
  (encryptObject key (counterNonce st.nonceCtr) pt, ⟨st.nonceCtr + 1⟩)

/-! ## Helper lemmas about the filesystem state model -/

theorem lookupFS_root (fs : FS) : lookupFS fs [] = some EntryData.dir := rfl

theorem findFS_erase_ne (fs : FS) (p q : Path) (h : q ≠ p) :
    findFS (eraseFS fs p) q = findFS fs q := by
  induction fs with
  | nil => rfl
  | cons e rest ih =>
    obtain ⟨s, d⟩ := e
    by_cases hs : s = p
    · have e1 : eraseFS ((s, d) :: rest) p = eraseFS rest p := by
        simp only [eraseFS, if_pos hs]
      have e2 : findFS ((s, d) :: rest) q = findFS rest q := by
        simp only [findFS]
        exact if_neg (fun hsq => h (hsq.symm.trans hs))
      rw [e1, ih, e2]
    · have e1 : eraseFS ((s, d) :: rest) p = (s, d) :: eraseFS rest p := by
        simp only [eraseFS, if_neg hs]
      rw [e1]
      simp only [findFS]
      by_cases hq : s = q
      · rw [if_pos hq, if_pos hq]
      · rw [if_neg hq, if_neg hq, ih]

theorem lookupFS_erase_ne (fs : FS) (p q : Path) (h : q ≠ p) :
    lookupFS (eraseFS fs p) q = lookupFS fs q := by
  by_cases hq : q = []
  · simp [lookupFS, hq]
  · simp only [lookupFS, if_neg hq]
    exact findFS_erase_ne fs p q h

theorem lookupFS_set_self (fs : FS) (p : Path) (d : EntryData) (h : p ≠ []) :
    lookupFS (setFS fs p d) p = some d := by
  simp [lookupFS, setFS, findFS, h]

theorem lookupFS_set_ne (fs : FS) (p q : Path) (d : EntryData) (h : q ≠ p) :
    lookupFS (setFS fs p d) q = lookupFS fs q := by
  by_cases hq : q = []
  · simp [lookupFS, hq]
  · simp only [lookupFS, if_neg hq, setFS, findFS]
    rw [if_neg (fun hpq => h hpq.symm)]
    exact findFS_erase_ne fs p q h

theorem resolvableFS_iff (fs : FS) (p : Path) :
    resolvableFS fs p = true ↔ ∀ q ∈ ancestorsOf p, lookupFS fs q = some EntryData.dir := by
  simp [resolvableFS, List.all_eq_true]

theorem mem_ancestorsOf_length (p q : Path) (h : q ∈ ancestorsOf p) : q.length < p.length := by
  simp only [ancestorsOf, List.mem_map, List.mem_range] at h
  obtain ⟨i, hi, rfl⟩ := h
  simp only [List.length_take]
  omega

theorem splitPath_empty : splitPath "" = [] := by decide

/-- Extraction lemma for a successful `openSwap`. -/
theorem openSwap_ok (fs fs2 : FS) (p : Path) (h : openSwap fs p = .ok fs2) :
    resolvableFS fs p = true ∧ lookupFS fs p = none ∧
      fs2 = setFS fs p (EntryData.file [] none) := by
  unfold openSwap at h
  by_cases hr : resolvableFS fs p = true
  · rw [if_pos hr] at h
    cases hl : lookupFS fs p with
    | none =>
        rw [hl] at h
        exact ⟨hr, rfl, (Except.ok.inj h).symm⟩
    | some d => rw [hl] at h; exact absurd h (by simp)
  · rw [if_neg hr] at h
    exact absurd h (by simp)

/-- Extraction lemma for a successful `tryOpenFile`. -/
theorem tryOpenFile_ok (fs fs3 : FS) (p : Path) (ine present : Bool)
    (h : tryOpenFile fs p ine = .ok (present, fs3)) :
    resolvableFS fs p = true ∧
      ((lookupFS fs p = none ∧ present = false ∧
          fs3 = setFS fs p (EntryData.file [] none)) ∨
        (∃ c x, lookupFS fs p = some (EntryData.file c x) ∧ present = true ∧ fs3 = fs)) := by
  unfold tryOpenFile at h
  by_cases hr : resolvableFS fs p = true
  · rw [if_pos hr] at h
    refine ⟨hr, ?_⟩
    cases hl : lookupFS fs p with
    | none =>
        rw [hl] at h
        obtain ⟨h1, h2⟩ := Prod.mk.inj (Except.ok.inj h)
        exact Or.inl ⟨rfl, h1.symm, h2.symm⟩
    | some d =>
        rw [hl] at h
        cases d with
        | dir =>
            cases ine with
            | false => exact absurd h (by simp)
            | true => exact absurd h (by simp)
        | file c x =>
            cases ine with
            | false =>
                obtain ⟨h1, h2⟩ := Prod.mk.inj (Except.ok.inj h)
                exact Or.inr ⟨c, x, rfl, h1.symm, h2.symm⟩
            | true => exact absurd h (by simp)
  · rw [if_neg hr] at h
    exact absurd h (by simp)

/-- With no condition requested, `checkConditions` always passes. -/
theorem checkConditions_no_condition (fs : FS) (p : Path) (i m nm present : Bool) :
    checkConditions fs p ⟨none, i, m, nm⟩ present = .ok () := by
  cases present <;> rfl

/-- Tail of the round-trip argument: once the upload has produced the final rename step, a
successful rename stores the payload (with its checksum attribute) at the target path, and
`Get` on the resulting disk drains to exactly the payload. -/
theorem roundtrip_tail (fs4 fs2 : FS) (name : String) (swapP : Path) (r : List Nat)
    (hfilene : splitPath name ≠ [])
    (hlook4sw : lookupFS fs4 swapP = some (EntryData.file r (some (sha256sum r))))
    (hlook4fl : ∃ c x, lookupFS fs4 (splitPath name) = some (EntryData.file c x))
    (hres4sw : resolvableFS fs4 swapP = true)
    (hres4fl : resolvableFS fs4 (splitPath name) = true)
    (h : renameFS fs4 swapP (splitPath name) = Except.ok fs2) :
    fsGet fs2 false name = Except.ok ⟨r, none⟩ := by
  obtain ⟨c, x, hfl⟩ := hlook4fl
  unfold renameFS at h
  rw [hres4sw, hres4fl] at h
  rw [if_pos (by decide : ((true && true) = true))] at h
  rw [hlook4sw, hfl] at h
  have h2 :
      Except.ok (setFS (eraseFS fs4 swapP) (splitPath name)
        (EntryData.file r (some (sha256sum r)))) = Except.ok fs2 := h
  obtain rfl := (Except.ok.inj h2).symm
  have hq_ne_swap : ∀ q ∈ ancestorsOf (splitPath name), q ≠ swapP := by
    intro q hq hqs
    have hd := (resolvableFS_iff fs4 (splitPath name)).mp hres4fl q hq
    rw [hqs, hlook4sw] at hd
    exact EntryData.noConfusion (Option.some.inj hd)
  have hresFinal :
      resolvableFS
        (setFS (eraseFS fs4 swapP) (splitPath name) (EntryData.file r (some (sha256sum r))))
        (splitPath name) = true := by
    rw [resolvableFS_iff]
    intro q hq
    have hqf : q ≠ splitPath name := by
      intro hqf
      have hlen := mem_ancestorsOf_length _ _ hq
      rw [hqf] at hlen
      exact lt_irrefl _ hlen
    rw [lookupFS_set_ne _ _ _ _ hqf, lookupFS_erase_ne _ _ _ (hq_ne_swap q hq)]
    exact (resolvableFS_iff fs4 (splitPath name)).mp hres4fl q hq
  have hnm : ¬(name = "") := by
    intro hn
    apply hfilene
    rw [hn]
    exact splitPath_empty
  simp only [fsGet, fsGetRange, Bool.false_eq_true, if_false]
  rw [if_neg hnm]
  simp only [statFS, hresFinal, if_true]
  rw [lookupFS_set_self _ _ _ hfilene]
  simp

/-- C1 -- Round-trip on the filesystem bucket: whenever `Upload(name, payload)` succeeds,
`Get(name)` returns a stream that drains to exactly `payload` (and no read error). -/
theorem fs_upload_get_roundtrip (fs fs2 : FS) (name : String) (r : List Nat)
    (h : fsUpload fs false name r [] = Except.ok fs2) :
    fsGet fs2 false name = Except.ok ⟨r, none⟩ := by
  simp only [fsUpload, ValidateUploadOptions, fsSupportedObjectUploadOptions, xattrSupported,
    ApplyObjectUploadOptions, List.foldl_nil, List.all_nil, if_true, Bool.false_eq_true,
    if_false, eq_self_iff_true] at h
  split at h
  · exact Except.noConfusion h
  rename_i fs1 heqm
  split at h
  · exact Except.noConfusion h
  rename_i fsB heqo
  split at h
  · exact Except.noConfusion h
  rename_i present fsC heqt
  split at h
  · rename_i e heqc
    rw [checkConditions_no_condition] at heqc
    exact Except.noConfusion heqc
  rename_i u2 heqc
  split at h
  · exact Except.noConfusion h
  rename_i fs4 heqx
  rename_i hx
  -- facts from the successful swap-file creation and target open
  obtain ⟨hres1, hlook1, rfl⟩ := openSwap_ok _ _ _ heqo
  obtain ⟨hres2, hcase⟩ := tryOpenFile_ok _ _ _ _ _ heqt
  have hswapne : splitPath (name ++ ".swap") ≠ [] := by
    intro hsw
    rw [hsw, lookupFS_root] at hlook1
    exact Option.noConfusion hlook1
  have hlookB_swap :
      lookupFS (setFS fs1 (splitPath (name ++ ".swap")) (EntryData.file [] none))
        (splitPath (name ++ ".swap")) = some (EntryData.file [] none) :=
    lookupFS_set_self _ _ _ hswapne
  set fileP := splitPath name with hfileP
  set swapP := splitPath (name ++ ".swap") with hswapP
  set fsB := setFS fs1 swapP (EntryData.file [] none) with hfsB
  split at heqx
  · rename_i e heqc2
    exact Except.noConfusion heqx
  rename_i fsC2 heqc2
  rcases hcase with ⟨hlookBf, hpres, rfl⟩ | ⟨c, x, hlookBf, hpres, rfl⟩
  · -- the target file did not exist and was created empty by the exclusive open
    have hfilene : fileP ≠ [] := by
      intro hf
      rw [hf, lookupFS_root] at hlookBf
      exact Option.noConfusion hlookBf
    have hfs : fileP ≠ swapP := by
      intro hfw
      rw [hfw, hlookB_swap] at hlookBf
      exact Option.noConfusion hlookBf
    have hlookC_swap : lookupFS (setFS fsB fileP (EntryData.file [] none)) swapP
        = some (EntryData.file [] none) := by
      rw [lookupFS_set_ne _ _ _ _ (fun hsw => hfs hsw.symm)]
      exact hlookB_swap
    unfold copyToFS at heqc2
    rw [hlookC_swap] at heqc2
    have hc2 : Except.ok (setFS (setFS fsB fileP (EntryData.file [] none)) swapP
        (EntryData.file r none)) = Except.ok fsC2 := heqc2
    obtain rfl := Except.ok.inj hc2
    unfold xattrSetFS at heqx
    rw [lookupFS_set_self _ _ _ hswapne] at heqx
    have hx2 : Except.ok (setFS (setFS (setFS fsB fileP (EntryData.file [] none)) swapP
        (EntryData.file r none)) swapP (EntryData.file r (some (sha256sum r))))
        = Except.ok fs4 := heqx
    obtain rfl := Except.ok.inj hx2
    apply roundtrip_tail _ fs2 name swapP r hfilene ?_ ?_ ?_ ?_ h
    · exact lookupFS_set_self _ _ _ hswapne
    · refine ⟨[], none, ?_⟩
      rw [lookupFS_set_ne _ _ _ _ hfs, lookupFS_set_ne _ _ _ _ hfs,
        lookupFS_set_self _ _ _ hfilene]
    · rw [resolvableFS_iff]
      intro q hq
      have hqlen := mem_ancestorsOf_length _ _ hq
      have hqsw : q ≠ swapP := by
        intro hqs
        rw [hqs] at hqlen
        exact lt_irrefl _ hqlen
      have hqB : lookupFS fsB q = some EntryData.dir := by
        rw [hfsB, lookupFS_set_ne _ _ _ _ hqsw]
        exact (resolvableFS_iff _ _).mp hres1 q hq
      have hqfl : q ≠ fileP := by
        intro hqf
        rw [hqf] at hqB
        rw [hlookBf] at hqB
        exact Option.noConfusion hqB
      rw [lookupFS_set_ne _ _ _ _ hqsw, lookupFS_set_ne _ _ _ _ hqsw,
        lookupFS_set_ne _ _ _ _ hqfl]
      exact hqB
    · rw [resolvableFS_iff]
      intro q hq
      have hqlen := mem_ancestorsOf_length _ _ hq
      have hqfl : q ≠ fileP := by
        intro hqf
        rw [hqf] at hqlen
        exact lt_irrefl _ hqlen
      have hqB : lookupFS fsB q = some EntryData.dir := (resolvableFS_iff _ _).mp hres2 q hq
      have hqsw : q ≠ swapP := by
        intro hqs
        rw [hqs] at hqB
        rw [hlookB_swap] at hqB
        exact EntryData.noConfusion (Option.some.inj hqB)
      rw [lookupFS_set_ne _ _ _ _ hqsw, lookupFS_set_ne _ _ _ _ hqsw,
        lookupFS_set_ne _ _ _ _ hqfl]
      exact hqB
  · -- the target file already existed as a regular file
    have hfilene : fileP ≠ [] := by
      intro hf
      rw [hf, lookupFS_root] at hlookBf
      exact EntryData.noConfusion (Option.some.inj hlookBf)
    unfold copyToFS at heqc2
    rw [hlookB_swap] at heqc2
    have hc2 : Except.ok (setFS fsB swapP (EntryData.file r none)) = Except.ok fsC2 := heqc2
    obtain rfl := Except.ok.inj hc2
    unfold xattrSetFS at heqx
    rw [lookupFS_set_self _ _ _ hswapne] at heqx
    have hx2 : Except.ok (setFS (setFS fsB swapP (EntryData.file r none)) swapP
        (EntryData.file r (some (sha256sum r)))) = Except.ok fs4 := heqx
    obtain rfl := Except.ok.inj hx2
    apply roundtrip_tail _ fs2 name swapP r hfilene ?_ ?_ ?_ ?_ h
    · exact lookupFS_set_self _ _ _ hswapne
    · by_cases hfw : fileP = swapP
      · refine ⟨r, some (sha256sum r), ?_⟩
        rw [← hfileP, hfw]
        exact lookupFS_set_self _ _ _ hswapne
      · refine ⟨c, x, ?_⟩
        rw [lookupFS_set_ne _ _ _ _ hfw, lookupFS_set_ne _ _ _ _ hfw]
        exact hlookBf
    · rw [resolvableFS_iff]
      intro q hq
      have hqlen := mem_ancestorsOf_length _ _ hq
      have hqsw : q ≠ swapP := by
        intro hqs
        rw [hqs] at hqlen
        exact lt_irrefl _ hqlen
      have hqB : lookupFS fsB q = some EntryData.dir := by
        rw [hfsB, lookupFS_set_ne _ _ _ _ hqsw]
        exact (resolvableFS_iff _ _).mp hres1 q hq
      rw [lookupFS_set_ne _ _ _ _ hqsw, lookupFS_set_ne _ _ _ _ hqsw]
      exact hqB
    · rw [resolvableFS_iff]
      intro q hq
      have hqB : lookupFS fsB q = some EntryData.dir := (resolvableFS_iff _ _).mp hres2 q hq
      have hqsw : q ≠ swapP := by
        intro hqs
        rw [hqs] at hqB
        rw [hlookB_swap] at hqB
        exact EntryData.noConfusion (Option.some.inj hqB)
      rw [lookupFS_set_ne _ _ _ _ hqsw, lookupFS_set_ne _ _ _ _ hqsw]
      exact hqB

/-- Witness for C1: uploading `[1, 2, 3]` under `dir/obj1` into an empty disk succeeds, and
the round-trip theorem applies to the resulting state. -/
theorem fs_upload_get_roundtrip_witness :
    fsGet [(["dir", "obj1"], EntryData.file [1, 2, 3] (some [1, 2, 3])), (["dir"], EntryData.dir)]
      false "dir/obj1" = Except.ok ⟨[1, 2, 3], none⟩ :=
  fs_upload_get_roundtrip [] _ "dir/obj1" [1, 2, 3] (by decide)

/-- C7 -- On the filesystem bucket, `Get(name)` is exactly `GetRange(name, 0, -1)`: the source
delegates one to the other, so the two agree on the stream contents and on the error in every
state (the s3 provider Get delegates to its getRange with 0 and -1 the same way). -/
theorem fs_get_eq_getRange_zero_negOne (fs : FS) (c : Bool) (name : String) :
    fsGet fs c name = fsGetRange fs c name 0 (-1) := rfl

/-- C4 counterexample -- the filesystem `GetRange` does not reject invalid ranges: with object
`a` holding `[10, 20, 30]`, a negative length other than `-1` (here `-5`) yields a successful
call returning a stream (draining to no bytes) instead of failing, and a negative offset
(here `-7`) is not rejected either (it reads from the start). -/
theorem fs_getRange_invalid_not_rejected :
    fsGetRange [(["a"], EntryData.file [10, 20, 30] none)] false "a" 0 (-5)
        = Except.ok ⟨[], none⟩ ∧
      fsGetRange [(["a"], EntryData.file [10, 20, 30] none)] false "a" (-7) (-1)
        = Except.ok ⟨[10, 20, 30], none⟩ := by
  decide

/-- C4 (amended) -- `length == -1` reads to the end (from the effective offset); a negative
`length` other than `-1` is not an error: the call still succeeds and returns a stream that
drains to no bytes (the non-positive `io.LimitReader` limit). -/
theorem fs_getRange_neg_length_empty_stream (fs : FS) (name : String) (off l : Int)
    (c : List Nat) (x : Option (List Nat)) (h1 : ¬(name = ""))
    (h2 : statFS fs (splitPath name) = some (EntryData.file c x)) (h3 : l < -1) :
    fsGetRange fs false name off l = Except.ok ⟨[], none⟩ ∧
      fsGetRange fs false name off (-1) = Except.ok ⟨c.drop off.toNat, none⟩ := by
  constructor
  · simp only [fsGetRange, Bool.false_eq_true, if_false]
    rw [if_neg h1]
    simp only [h2]
    rw [if_neg (show ¬(l = -1) by omega)]
    have ht : l.toNat = 0 := Int.toNat_eq_zero.mpr (by omega)
    rw [ht]
    simp
  · simp only [fsGetRange, Bool.false_eq_true, if_false]
    rw [if_neg h1]
    simp only [h2]
    simp

/-- Witness for the amended C4 at the concrete state used by the counterexample. -/
theorem fs_getRange_neg_length_empty_stream_witness :
    fsGetRange [(["a"], EntryData.file [10, 20, 30] none)] false "a" 0 (-5)
        = Except.ok ⟨[], none⟩ ∧
      fsGetRange [(["a"], EntryData.file [10, 20, 30] none)] false "a" 0 (-1)
        = Except.ok ⟨[10, 20, 30], none⟩ :=
  fs_getRange_neg_length_empty_stream [(["a"], EntryData.file [10, 20, 30] none)] "a" 0 (-5)
    [10, 20, 30] none (by decide) (by decide) (by decide)

/-- C3 counterexample -- the plain `Iter` of the OBS provider does not validate requested
options: `UpdatedAt` is absent from its supported set (so validation classifies it
unsupported), yet `Iter` with that option succeeds and performs the listing instead of
failing synchronously. -/
theorem obs_iter_ignores_unsupported_option :
    ValidateIterOptions obsSupportedIterOptions [IterOption.withUpdatedAt]
        = Except.error Err.unsupportedOption ∧
      obsIter (fun _ _ => [⟨["dir/obj1"], [], false⟩]) "dir" [IterOption.withUpdatedAt]
        = Except.ok ["dir/obj1"] := by
  constructor
  · decide
  · rfl

/-- The attribute-aware listing does validate: `IterWithAttributes` on the OBS provider fails
synchronously with the option-validation error, before consulting the client, whenever any
requested option type is absent from the supported set. -/
theorem obs_iterWithAttributes_validates (client : String → Bool → List ObsPage)
    (dir : String) (opts : List IterOption)
    (h : (opts.all fun o => obsSupportedIterOptions.contains o.itype) = false) :
    obsIterWithAttributes client dir opts = Except.error Err.unsupportedOption := by
  unfold obsIterWithAttributes ValidateIterOptions
  rw [h]
  rfl

/-- Every upload option type is in the supported set of the filesystem provider, so its
validate-first call accepts every request. -/
theorem validateUploadOptions_fs_ok (opts : List ObjectUploadOption) :
    ValidateUploadOptions fsSupportedObjectUploadOptions opts = Except.ok () := by
  have hall : (opts.all fun o => fsSupportedObjectUploadOptions.contains o.otype) = true := by
    rw [List.all_eq_true]
    intro o ho
    cases o <;> rfl
  unfold ValidateUploadOptions
  rw [hall]
  rfl

/-- `mkdirStep` never fails with the option-validation error. -/
theorem mkdirStep_not_unsupported (fs : FS) (q : Path) :
    mkdirStep fs q ≠ Except.error Err.unsupportedOption := by
  unfold mkdirStep
  split <;> simp

/-- The `MkdirAll` fold never fails with the option-validation error. -/
theorem mkdirFold_not_unsupported :
    ∀ (l : List Path) (fs : FS), l.foldlM mkdirStep fs ≠ Except.error Err.unsupportedOption := by
  intro l
  induction l with
  | nil =>
      intro fs h
      exact Except.noConfusion h
  | cons q rest ih =>
      intro fs h
      rw [List.foldlM_cons] at h
      cases hs : mkdirStep fs q with
      | error e =>
          rw [hs] at h
          have h2 : Except.error (α := FS) e = Except.error Err.unsupportedOption := h
          obtain rfl := Except.error.inj h2
          exact mkdirStep_not_unsupported fs q hs
      | ok fs2 =>
          rw [hs] at h
          have h2 : rest.foldlM mkdirStep fs2 = Except.error Err.unsupportedOption := h
          exact ih fs2 h2

/-- `mkdirAll` never fails with the option-validation error. -/
theorem mkdirAll_not_unsupported (fs : FS) (p : Path) :
    mkdirAll fs p ≠ Except.error Err.unsupportedOption :=
  mkdirFold_not_unsupported (prefixesUpTo p) fs

/-- `openSwap` never fails with the option-validation error. -/
theorem openSwap_not_unsupported (fs : FS) (p : Path) :
    openSwap fs p ≠ Except.error Err.unsupportedOption := by
  unfold openSwap
  split
  · split <;> simp
  · simp

/-- `tryOpenFile` never fails with the option-validation error. -/
theorem tryOpenFile_not_unsupported (fs : FS) (p : Path) (ine : Bool) :
    tryOpenFile fs p ine ≠ Except.error Err.unsupportedOption := by
  unfold tryOpenFile
  split
  · split
    · simp
    · split <;> simp
    · split <;> simp
  · simp

/-- The checksum read never fails with the option-validation error. -/
theorem checksumFS_not_unsupported (fs : FS) (p : Path) :
    checksumFS fs p ≠ Except.error Err.unsupportedOption := by
  unfold checksumFS
  split <;> simp

/-- `checkConditions` never fails with the option-validation error. -/
theorem checkConditions_not_unsupported (fs : FS) (p : Path) (params : UploadObjectParams)
    (present : Bool) :
    checkConditions fs p params present ≠ Except.error Err.unsupportedOption := by
  unfold checkConditions
  split
  · simp
  · split
    · split
      · simp
      · split
        · rename_i e heq
          intro hc
          obtain rfl := Except.error.inj hc
          exact checksumFS_not_unsupported fs p heq
        · split
          · simp
          · split <;> simp
    · simp

/-- `copyToFS` never fails with the option-validation error. -/
theorem copyToFS_not_unsupported (fs : FS) (p : Path) (bytes : List Nat) :
    copyToFS fs p bytes ≠ Except.error Err.unsupportedOption := by
  unfold copyToFS
  split <;> simp

/-- `xattrSetFS` never fails with the option-validation error. -/
theorem xattrSetFS_not_unsupported (fs : FS) (p : Path) (digest : List Nat) :
    xattrSetFS fs p digest ≠ Except.error Err.unsupportedOption := by
  unfold xattrSetFS
  split <;> simp

/-- `renameFS` never fails with the option-validation error. -/
theorem renameFS_not_unsupported (fs : FS) (src dst : Path) :
    renameFS fs src dst ≠ Except.error Err.unsupportedOption := by
  unfold renameFS
  split
  · split <;> simp
  · simp

/-- The filesystem `Upload` never fails with the option-validation error: its supported set
contains every upload option type, the validation runs first, and no later pipeline step can
raise that error. -/
theorem fsUpload_not_unsupported (fs : FS) (ctx : Bool) (name : String) (r : List Nat)
    (opts : List ObjectUploadOption) :
    fsUpload fs ctx name r opts ≠ Except.error Err.unsupportedOption := by
  intro h
  simp only [fsUpload, validateUploadOptions_fs_ok] at h
  split at h
  · rename_i hctx
    have h2 : Except.error (α := FS) Err.cancelled = Except.error Err.unsupportedOption := h
    exact Err.noConfusion (Except.error.inj h2)
  split at h
  · rename_i e heq
    obtain rfl := Except.error.inj h
    exact mkdirAll_not_unsupported _ _ heq
  rename_i fs1 heqm
  split at h
  · rename_i e heq
    obtain rfl := Except.error.inj h
    exact openSwap_not_unsupported _ _ heq
  rename_i fsB heqo
  split at h
  · rename_i e heq
    obtain rfl := Except.error.inj h
    exact tryOpenFile_not_unsupported _ _ _ heq
  rename_i present fsC heqt
  split at h
  · rename_i e heq
    obtain rfl := Except.error.inj h
    exact checkConditions_not_unsupported _ _ _ _ heq
  rename_i u2 heqc
  split at h
  · rename_i e heqx
    obtain rfl := Except.error.inj h
    split at heqx
    · split at heqx
      · rename_i e2 heq2
        obtain rfl := Except.error.inj heqx
        exact copyToFS_not_unsupported _ _ _ heq2
      · rename_i fsC2 heq2
        exact xattrSetFS_not_unsupported _ _ _ heqx
    · exact Except.noConfusion heqx
  rename_i fs4 heqx
  exact renameFS_not_unsupported _ _ _ h

/-- C3 (amended) -- Option validation is performed by the attribute-aware listing and by
Upload, not by plain `Iter`: `IterWithAttributes` on the OBS provider fails synchronously
with the option-validation error whenever a requested option type is absent from its
supported set; the validator that `Upload` consults before any I/O rejects exactly the
requests containing an option type outside the supported set; and the filesystem backend
(the only option-taking `Upload` in the sources) supports every upload option type, so its
`Upload` never fails with the option-validation error. -/
theorem option_validation_iter_and_upload (client : String → Bool → List ObsPage)
    (dir : String) (opts1 : List IterOption) (supported : List ObjectUploadOptionType)
    (opts2 : List ObjectUploadOption) (fs : FS) (ctx : Bool) (name : String) (r : List Nat)
    (opts3 : List ObjectUploadOption)
    (h1 : (opts1.all fun o => obsSupportedIterOptions.contains o.itype) = false)
    (h2 : (opts2.all fun o => supported.contains o.otype) = false) :
    obsIterWithAttributes client dir opts1 = Except.error Err.unsupportedOption ∧
      ValidateUploadOptions supported opts2 = Except.error Err.unsupportedOption ∧
      ValidateUploadOptions fsSupportedObjectUploadOptions opts3 = Except.ok () ∧
      fsUpload fs ctx name r opts3 ≠ Except.error Err.unsupportedOption := by
  refine ⟨obs_iterWithAttributes_validates client dir opts1 h1, ?_,
    validateUploadOptions_fs_ok opts3, fsUpload_not_unsupported fs ctx name r opts3⟩
  unfold ValidateUploadOptions
  rw [h2]
  rfl

/-- Witness for the amended C3: `UpdatedAt` requested from the OBS listing; an upload option
validated against an empty supported set; and a filesystem upload with a requested option. -/
theorem option_validation_iter_and_upload_witness :
    obsIterWithAttributes (fun _ _ => [⟨["dir/obj1"], [], false⟩]) "dir"
        [IterOption.withUpdatedAt] = Except.error Err.unsupportedOption ∧
      ValidateUploadOptions [] [ObjectUploadOption.withIfNotExists]
        = Except.error Err.unsupportedOption ∧
      ValidateUploadOptions fsSupportedObjectUploadOptions [ObjectUploadOption.withIfNotExists]
        = Except.ok () ∧
      fsUpload [] false "obj" [1] [ObjectUploadOption.withIfNotExists]
        ≠ Except.error Err.unsupportedOption :=
  option_validation_iter_and_upload _ _ _ [] _ [] false "obj" [1] _ (by decide) (by decide)

/-- After removing the whole destination tree nothing remains below the destination root. -/
theorem destExists_cleanupDest (root : Path) (lfs : LocalFS) :
    destExists root (cleanupDest root lfs) = false := by
  induction lfs with
  | nil => rfl
  | cons e rest ih =>
    simp only [cleanupDest, List.filter_cons]
    by_cases hp : root.isPrefixOf e.1 = true
    · simp only [hp, Bool.not_true, if_false]
      exact ih
    · have hp2 : root.isPrefixOf e.1 = false := by
        revert hp
        cases root.isPrefixOf e.1 <;> simp
      simp only [hp2, Bool.not_false, if_true, destExists, List.any_cons, Bool.false_or]
      exact ih

/-- The failure behaviour of the sync fetch loop: a failing object anywhere in the work list
forces an error result and an empty destination tree. -/
theorem downloadLoop_fail (get : String → Except Err (List Nat)) (root : Path) :
    ∀ (names : List String) (lfs : LocalFS) (n : String), n ∈ names →
      (get n).toOption = none →
      (downloadLoop get root names lfs).1.toOption = none ∧
        destExists root (downloadLoop get root names lfs).2 = false := by
  intro names
  induction names with
  | nil => intro lfs n hmem; cases hmem
  | cons m rest ih =>
    intro lfs n hmem hfail
    cases hg : get m with
    | error e =>
        simp only [downloadLoop, hg]
        exact ⟨rfl, destExists_cleanupDest _ _⟩
    | ok bytes =>
        simp only [downloadLoop, hg]
        rcases List.mem_cons.mp hmem with rfl | hrest
        · rw [hg] at hfail
          exact absurd hfail (by simp [Except.toOption])
        · exact ih _ n hrest hfail

/-- C2 -- `DownloadDir` is all-or-nothing: if fetching any listed object fails, the call
returns an error and the destination root does not exist afterwards (the whole tree the call
created has been removed). -/
theorem downloadDir_cleanup_on_failure (get : String → Except Err (List Nat))
    (names : List String) (root : Path) (lfs : LocalFS) (n : String)
    (hmem : n ∈ names) (hfail : (get n).toOption = none) :
    (downloadDir get names root lfs).1.toOption = none ∧
      destExists root (downloadDir get names root lfs).2 = false :=
  downloadLoop_fail get root names lfs n hmem hfail

/-- Witness for C2, mirroring the repository test `TestDownloadDir_CleanUp`: three objects of
which the third fetch fails; the download errors and the destination does not exist. -/
theorem downloadDir_cleanup_on_failure_witness :
    (downloadDir
        (fun s => if s = "dir/obj3" then Except.error Err.notFound else Except.ok [1])
        ["dir/obj1", "dir/obj2", "dir/obj3"] ["dest"] []).1.toOption = none ∧
      destExists ["dest"]
        (downloadDir
          (fun s => if s = "dir/obj3" then Except.error Err.notFound else Except.ok [1])
          ["dir/obj1", "dir/obj2", "dir/obj3"] ["dest"] []).2 = false :=
  downloadDir_cleanup_on_failure _ _ _ _ "dir/obj3" (by decide) (by decide)

/-- One upload always advances the attempted-operations counter by one. -/
theorem metricUpload_ops_upload (f : Err → Bool) (m : BucketMetrics) (res : Except Err Unit) :
    (metricUpload f m res).ops Op.opUpload = m.ops Op.opUpload + 1 := by
  cases res with
  | ok u => simp [metricUpload, incOp]
  | error e =>
      by_cases hf : f e = true
      · simp [metricUpload, hf, incOp]
      · have hf2 : f e = false := by
          revert hf
          cases f e <;> simp
        simp [metricUpload, hf2, incOp, incFailure]

/-- A successful upload leaves the failed-operations counter alone. -/
theorem metricUpload_failures_ok (f : Err → Bool) (m : BucketMetrics) (u : Unit) :
    (metricUpload f m (Except.ok u)).opsFailures Op.opUpload
      = m.opsFailures Op.opUpload := by
  simp [metricUpload, incOp]

/-- With no expected-errors predicate, a failed upload advances the failed counter by one. -/
theorem metricUpload_failures_error (m : BucketMetrics) (e : Err) :
    (metricUpload (fun _ => false) m (Except.error e)).opsFailures Op.opUpload
      = m.opsFailures Op.opUpload + 1 := by
  simp [metricUpload, incOp, incFailure]

/-- The two upload counters after a batch of uploads through the metrics bookkeeping, with no
expected-errors predicate registered. -/
theorem metricUploadMany_counts (rs : List (Except Err Unit)) (m : BucketMetrics) :
    (metricUploadMany (fun _ => false) m rs).ops Op.opUpload
        = m.ops Op.opUpload + rs.length ∧
      (metricUploadMany (fun _ => false) m rs).opsFailures Op.opUpload
        = m.opsFailures Op.opUpload + rs.countP (fun r => r.toOption.isNone) := by
  induction rs generalizing m with
  | nil => simp [metricUploadMany]
  | cons r rest ih =>
    have hstep := ih (metricUpload (fun _ => false) m r)
    simp only [metricUploadMany, List.foldl_cons] at hstep ⊢
    refine ⟨?_, ?_⟩
    · rw [hstep.1, metricUpload_ops_upload]
      simp only [List.length_cons]
      omega
    · rw [hstep.2]
      cases r with
      | ok u =>
          rw [metricUpload_failures_ok]
          simp [List.countP_cons, Except.toOption]
      | error e =>
          rw [metricUpload_failures_error]
          simp [List.countP_cons, Except.toOption]
          omega

/-- C5 -- Metrics accounting: for any batch of upload outcomes the attempted-counter advances
by the batch size and the failed-counter by the number of failed outcomes (no expected-errors
predicate registered); and a not-found `Get` error counts as a failure exactly when not-found
has not been registered as expected. -/
theorem metric_upload_get_accounting (rs : List (Except Err Unit)) (m : BucketMetrics) :
    ((metricUploadMany (fun _ => false) m rs).ops Op.opUpload
        = m.ops Op.opUpload + rs.length ∧
      (metricUploadMany (fun _ => false) m rs).opsFailures Op.opUpload
        = m.opsFailures Op.opUpload + rs.countP (fun r => r.toOption.isNone)) ∧
      (metricGet (fun _ => false) m (Except.error Err.notFound)).opsFailures Op.opGet
        = m.opsFailures Op.opGet + 1 ∧
      (metricGet isObjNotFoundErr m (Except.error Err.notFound)).opsFailures Op.opGet
        = m.opsFailures Op.opGet := by
  refine ⟨metricUploadMany_counts rs m, ?_, ?_⟩
  · simp [metricGet, incOp, incFailure]
  · simp [metricGet, incOp, isObjNotFoundErr]

/-- C6 -- Capability preservation: the wrapper variant chosen at construction time reports
exactly the seek/offset-read capability combination of the base stream, each of the two
capabilities independently. -/
theorem timing_reader_caps_preserved (caps : StreamCaps) :
    (newTimingReaderVariant caps).caps = caps := by
  obtain ⟨s, ra⟩ := caps
  cases s <;> cases ra <;> rfl

/-- C8 -- Idempotent double close: closing an instrumented stream a second time leaves the
recorded failure count and duration observations (indeed the whole bookkeeping state)
unchanged from their values after the first close. -/
theorem timing_close_idempotent (isExp : Err → Bool) (st : TimingReaderState)
    (e1 e2 : Option Err) :
    timingClose isExp (timingClose isExp st e1) e2 = timingClose isExp st e1 := by
  by_cases hd : st.done = true
  · simp [timingClose, hd]
  · have hd2 : st.done = false := by
      revert hd
      cases st.done <;> simp
    cases e1 <;> simp [timingClose, hd2]

/-- C9 -- Nonce non-reuse: two consecutive uploads of the same plaintext under the same key
through the Encryption decorator produce different ciphertext byte strings (the fresh nonce
framing differs). -/
theorem enc_uploads_differ (key pt : List Nat) (st : EncState) :
    (encUpload key st pt).1 ≠ (encUpload key (encUpload key st pt).2 pt).1 := by
  intro heq
  simp only [encUpload, encryptObject] at heq
  have h12 := (List.append_inj heq rfl).1
  have hn := (List.append_inj h12 rfl).1
  have h0 : some (st.nonceCtr % 256) = some ((st.nonceCtr + 1) % 256) :=
    congrArg List.head? hn
  have h1 := Option.some.inj h0
  omega

/-- C10 -- `Upload` through the Metrics decorator never closes the caller-supplied reader:
after the call returns (success or failure alike) the closed flag of the reader is exactly what it
was before. -/
theorem metric_upload_preserves_reader (upload : List Nat → Except Err Unit)
    (r : CallerReader) : ((metricUploadReader upload r).2).closed = r.closed := rfl

end Objstore
